import Mathlib

/-!
# GSOS client-management backend: the request handlers of `server.js`

The service is an Express application; every route opens a `mysql2` connection,
runs one or two parameterised statements, closes the connection and answers.
The handlers are embedded as pure functions `Db → Db × Response`.

What the JavaScript file relies on but does not contain is made explicit:

* `Backend.hash` is `bcrypt.hash`, the salt of the call included (the cost `10` is
  passed by the handlers);
* `Backend.dateRank` is the order of the `pull_date` column used by `ORDER BY`;
* `Backend.fk` is the `pull_history.client_id → clients.id` foreign key of the
  schema: not enforced, restricting deletions, or cascading them;
* `Env` tells which driver calls of one request reject for a reason outside the
  model (connection refused, connection lost, a column constraint, ...).

Two library behaviours decide which requests reach the database: `bcrypt.hash`
rejects a password that is not a string, and `connection.execute` rejects a bind
parameter that is `undefined`.

Request-body fields are JavaScript values restricted to what the text columns
take: `undefined` (field absent), `null`, or a string.  Path ids are the numeric
ids of the `clients` table.  A column stores the bound value verbatim, and the
tables are lists in insertion order.
-/

namespace Gsos

/-! ## JavaScript values -/

/-- A field of `req.body`: absent, `null`, or a string. -/
inductive JsValue where
  | undefined
  | null
  | str (s : String)
deriving DecidableEq, Repr

/-- JavaScript truthiness: `undefined`, `null` and `''` are falsy. -/
def JsValue.truthy : JsValue → Bool
  | .str s => decide (s ≠ "")
  | _ => false

/-- The expression `v || null`. -/
def JsValue.orNull (v : JsValue) : JsValue :=
  if v.truthy then v else .null

/-! ## Tables -/

/-- A row of `clients`. -/
structure ClientRow where
  id : Nat
  client_name : JsValue
  domain_url : JsValue
  client_id : JsValue
  password : JsValue
  original_password : JsValue
  latest_pull_date : JsValue
  latest_pull_by : JsValue
  gsos_version : JsValue
deriving DecidableEq, Repr

/-- A row of `pull_history`. -/
structure PullHistoryRow where
  id : Nat
  client_id : Nat
  pull_date : JsValue
  pull_by : JsValue
  version : JsValue
deriving DecidableEq, Repr

/-- The database: both tables in insertion order, and the two AUTO_INCREMENT counters. -/
structure Db where
  clients : List ClientRow
  pull_history : List PullHistoryRow
  nextClientId : Nat
  nextHistoryId : Nat
deriving DecidableEq, Repr

/-- The database before any request. -/
def Db.empty : Db := ⟨[], [], 1, 1⟩

/-- How the schema declares the foreign key `pull_history.client_id`. -/
inductive FkMode where
  | none
  | restrict
  | cascade
deriving DecidableEq, Repr

/-- The parts of the deployment that `server.js` uses but does not define. -/
structure Backend where
  hash : String → Nat → String
  dateRank : JsValue → Nat
  fk : FkMode

/-- Driver calls of one request that reject for a reason outside the model,
with the message of the rejection. -/
structure Env where
  connect : Option String
  execute : Nat → Option String
  close : Option String

/-- No driver call rejects. -/
def Env.healthy : Env := ⟨none, fun _ => none, none⟩

/-! ## Responses -/

/-- The JSON body of a response. -/
inductive Payload where
  | client (row : ClientRow)
  | history (rows : List PullHistoryRow)
  | created (id : Nat) (message : String)
  | message (m : String)
  | error (e : String)
deriving DecidableEq, Repr

/-- Status code and body. -/
structure Response where
  status : Nat
  body : Payload
deriving DecidableEq, Repr

/-- The `catch` block of every handler: `res.status(500).json({ error: error.message })`. -/
def serverError (e : String) : Response := ⟨500, .error e⟩

/-! ## Libraries -/

/-- The call `bcrypt.hash(password, cost)`: rejects unless `password` is a string. -/
def bcryptHash (w : Backend) (password : JsValue) (cost : Nat) : Except String String :=
  match password with
  | .str s => .ok (w.hash s cost)
  | .undefined => .error "Illegal arguments: undefined, number"
  | .null => .error "Illegal arguments: object, number"

/-- The check `connection.execute` makes on its bind parameters before sending them. -/
def bindError (params : List JsValue) : Option String :=
  if params.contains .undefined then
    some "Bind parameters must not contain undefined. To pass SQL NULL specify JS null"
  else none

/-- What stops the `k`-th `execute` of a request before the statement runs. -/
def executeError (env : Env) (k : Nat) (params : List JsValue) : Option String :=
  match bindError params with
  | some e => some e
  | none => env.execute k

/-! ## Statements -/

/-- The rows of `SELECT * FROM clients WHERE id = ?`. -/
def selectClient (db : Db) (id : Nat) : List ClientRow :=
  db.clients.filter (fun c => c.id == id)

/-- The statement `INSERT INTO clients (...) VALUES (?, ?, ?, ?, ?, ?, ?, ?)`; returns `insertId`. -/
def insertClient (db : Db) (client_name domain_url client_id password original_password
    latest_pull_date latest_pull_by gsos_version : JsValue) : Db × Nat :=
  ({ db with
      clients := db.clients ++ [⟨db.nextClientId, client_name, domain_url, client_id, password,
        original_password, latest_pull_date, latest_pull_by, gsos_version⟩]
      nextClientId := db.nextClientId + 1 },
   db.nextClientId)

/-- The database with one more `pull_history` row, numbered by the table's counter. -/
def addHistoryRow (db : Db) (client_id : Nat) (pull_date pull_by version : JsValue) : Db :=
  { db with
    pull_history := db.pull_history ++ [⟨db.nextHistoryId, client_id, pull_date, pull_by, version⟩]
    nextHistoryId := db.nextHistoryId + 1 }

/-- The statement `INSERT INTO pull_history (client_id, pull_date, pull_by, version) VALUES (?, ?, ?, ?)`. -/
def insertHistory (w : Backend) (db : Db) (client_id : Nat) (pull_date pull_by version : JsValue) :
    Except String Db :=
  if w.fk ≠ .none ∧ selectClient db client_id = [] then
    .error "Cannot add or update a child row: a foreign key constraint fails"
  else
    .ok (addHistoryRow db client_id pull_date pull_by version)

/-- The `SET` list of the `UPDATE` built by `PUT /api/clients/:id`, applied to one row. -/
def setClientFields (c : ClientRow) (client_name domain_url client_id latest_pull_date
    latest_pull_by gsos_version : JsValue) (passwords : Option (JsValue × JsValue)) : ClientRow :=
  let c1 := { c with
    client_name := client_name, domain_url := domain_url, client_id := client_id,
    latest_pull_date := latest_pull_date, latest_pull_by := latest_pull_by,
    gsos_version := gsos_version }
  match passwords with
  | some (hashed, plain) => { c1 with password := hashed, original_password := plain }
  | none => c1

/-- The statement `UPDATE clients SET ... WHERE id = ?` of `PUT /api/clients/:id`. -/
def updateClient (db : Db) (id : Nat) (client_name domain_url client_id latest_pull_date
    latest_pull_by gsos_version : JsValue) (passwords : Option (JsValue × JsValue)) : Db :=
  { db with
    clients := db.clients.map (fun c =>
      if c.id == id then
        setClientFields c client_name domain_url client_id latest_pull_date latest_pull_by
          gsos_version passwords
      else c) }

/-- The statement `UPDATE clients SET latest_pull_date = ?, latest_pull_by = ?, gsos_version = ? WHERE id = ?`. -/
def updateLatestPull (db : Db) (id : Nat) (pull_date pull_by version : JsValue) : Db :=
  { db with
    clients := db.clients.map (fun c =>
      if c.id == id then
        { c with latest_pull_date := pull_date, latest_pull_by := pull_by, gsos_version := version }
      else c) }

/-- The statement `DELETE FROM clients WHERE id = ?` under the schema's foreign key. -/
def deleteClientRow (w : Backend) (db : Db) (id : Nat) : Except String Db :=
  match w.fk with
  | .none => .ok { db with clients := db.clients.filter (fun c => !(c.id == id)) }
  | .restrict =>
    if selectClient db id ≠ [] ∧ db.pull_history.any (fun h => h.client_id == id) then
      .error "Cannot delete or update a parent row: a foreign key constraint fails"
    else .ok { db with clients := db.clients.filter (fun c => !(c.id == id)) }
  | .cascade =>
    if selectClient db id ≠ [] then
      .ok { db with
        clients := db.clients.filter (fun c => !(c.id == id))
        pull_history := db.pull_history.filter (fun h => !(h.client_id == id)) }
    else .ok { db with clients := db.clients.filter (fun c => !(c.id == id)) }

/-- The rows of `SELECT * FROM pull_history WHERE client_id = ? ORDER BY pull_date DESC`. -/
def selectHistory (w : Backend) (db : Db) (id : Nat) : List PullHistoryRow :=
  (db.pull_history.filter (fun h => h.client_id == id)).insertionSort
    (fun a b => w.dateRank b.pull_date ≤ w.dateRank a.pull_date)

/-! ## Handlers -/

/-- The calls `await connection.end()` and then the response `r`. -/
def closeThen (env : Env) (db : Db) (r : Response) : Db × Response :=
  match env.close with
  | some e => (db, serverError e)
  | none => (db, r)

/-- The route `GET /api/clients/:id/details`. -/
def getClientDetails (env : Env) (db : Db) (id : Nat) : Response :=
  match env.connect with
  | some e => serverError e
  | none =>
    match executeError env 0 [] with
    | some e => serverError e
    | none =>
      let rows := selectClient db id
      match env.close with
      | some e => serverError e
      | none =>
        match rows with
        | [] => ⟨404, .error "Client not found"⟩
        | row :: _ => ⟨200, .client row⟩

/-- The body of `POST /api/clients` and of `PUT /api/clients/:id`. -/
structure ClientBody where
  client_name : JsValue
  domain_url : JsValue
  client_id : JsValue
  password : JsValue
  latest_pull_date : JsValue
  latest_pull_by : JsValue
  gsos_version : JsValue
deriving DecidableEq, Repr

/-- The route `POST /api/clients`. -/
def postClient (w : Backend) (env : Env) (db : Db) (b : ClientBody) : Db × Response :=
  match bcryptHash w b.password 10 with
  | .error e => (db, serverError e)
  | .ok hashedPassword =>
    match env.connect with
    | some e => (db, serverError e)
    | none =>
      match executeError env 0 [b.client_name, b.domain_url, b.client_id, .str hashedPassword,
          b.password, b.latest_pull_date.orNull, b.latest_pull_by.orNull,
          b.gsos_version.orNull] with
      | some e => (db, serverError e)
      | none =>
        let result := insertClient db b.client_name b.domain_url b.client_id
          (.str hashedPassword) b.password b.latest_pull_date.orNull b.latest_pull_by.orNull
          b.gsos_version.orNull
        if b.latest_pull_date.truthy && b.latest_pull_by.truthy then
          match executeError env 1 [b.latest_pull_date, b.latest_pull_by,
              b.gsos_version.orNull] with
          | some e => (result.1, serverError e)
          | none =>
            match insertHistory w result.1 result.2 b.latest_pull_date b.latest_pull_by
                b.gsos_version.orNull with
            | .error e => (result.1, serverError e)
            | .ok db2 =>
              closeThen env db2 ⟨201, .created result.2 "Client added successfully"⟩
        else
          closeThen env result.1 ⟨201, .created result.2 "Client added successfully"⟩

/-- The route `PUT /api/clients/:id`. -/
def putClient (w : Backend) (env : Env) (db : Db) (id : Nat) (b : ClientBody) : Db × Response :=
  match env.connect with
  | some e => (db, serverError e)
  | none =>
    if b.password.truthy then
      match bcryptHash w b.password 10 with
      | .error e => (db, serverError e)
      | .ok hashedPassword =>
        match executeError env 0 [b.client_name, b.domain_url, b.client_id,
            b.latest_pull_date.orNull, b.latest_pull_by.orNull, b.gsos_version.orNull,
            .str hashedPassword, b.password] with
        | some e => (db, serverError e)
        | none =>
          closeThen env
            (updateClient db id b.client_name b.domain_url b.client_id b.latest_pull_date.orNull
              b.latest_pull_by.orNull b.gsos_version.orNull
              (some (.str hashedPassword, b.password)))
            ⟨200, .message "Client updated successfully"⟩
    else
      match executeError env 0 [b.client_name, b.domain_url, b.client_id,
          b.latest_pull_date.orNull, b.latest_pull_by.orNull, b.gsos_version.orNull] with
      | some e => (db, serverError e)
      | none =>
        closeThen env
          (updateClient db id b.client_name b.domain_url b.client_id b.latest_pull_date.orNull
            b.latest_pull_by.orNull b.gsos_version.orNull none)
          ⟨200, .message "Client updated successfully"⟩

/-- The route `DELETE /api/clients/:id`. -/
def deleteClient (w : Backend) (env : Env) (db : Db) (id : Nat) : Db × Response :=
  match env.connect with
  | some e => (db, serverError e)
  | none =>
    match executeError env 0 [] with
    | some e => (db, serverError e)
    | none =>
      match deleteClientRow w db id with
      | .error e => (db, serverError e)
      | .ok db1 => closeThen env db1 ⟨200, .message "Client deleted successfully"⟩

/-- The route `GET /api/clients/:id/history`. -/
def getHistory (w : Backend) (env : Env) (db : Db) (id : Nat) : Response :=
  match env.connect with
  | some e => serverError e
  | none =>
    match executeError env 0 [] with
    | some e => serverError e
    | none =>
      let rows := selectHistory w db id
      match env.close with
      | some e => serverError e
      | none => ⟨200, .history rows⟩

/-- The body of `POST /api/clients/:id/history`. -/
structure HistoryBody where
  pull_date : JsValue
  pull_by : JsValue
  version : JsValue
deriving DecidableEq, Repr

/-- The route `POST /api/clients/:id/history`. -/
def postHistory (w : Backend) (env : Env) (db : Db) (id : Nat) (b : HistoryBody) : Db × Response :=
  match env.connect with
  | some e => (db, serverError e)
  | none =>
    match executeError env 0 [b.pull_date, b.pull_by, b.version.orNull] with
    | some e => (db, serverError e)
    | none =>
      match insertHistory w db id b.pull_date b.pull_by b.version.orNull with
      | .error e => (db, serverError e)
      | .ok db1 =>
        match executeError env 1 [b.pull_date, b.pull_by, b.version.orNull] with
        | some e => (db1, serverError e)
        | none =>
          closeThen env (updateLatestPull db1 id b.pull_date b.pull_by b.version.orNull)
            ⟨201, .message "Pull history added successfully"⟩

/-! ## Predicates of the specification -/

/-- The AUTO_INCREMENT counter of `clients` is above every id in use or referenced. -/
def Db.Fresh (db : Db) : Prop :=
  (∀ c ∈ db.clients, c.id < db.nextClientId) ∧
  (∀ h ∈ db.pull_history, h.client_id < db.nextClientId)

/-- Referential integrity of `pull_history.client_id`. -/
def Db.RefIntegrity (db : Db) : Prop :=
  ∀ h ∈ db.pull_history, ∃ c ∈ db.clients, c.id = h.client_id

/-- The most recently inserted `pull_history` row of a client, if it has any. -/
def latestHistory (db : Db) (id : Nat) : Option PullHistoryRow :=
  (db.pull_history.filter (fun h => h.client_id == id)).getLast?

/-- The mirrored-field invariant of the data model: a client with history carries the
fields of its most recently inserted `pull_history` row. -/
def Mirrored (db : Db) : Prop :=
  ∀ c ∈ db.clients, ∀ h, latestHistory db c.id = some h →
    c.latest_pull_date = h.pull_date ∧ c.latest_pull_by = h.pull_by ∧
    c.gsos_version = h.version

/-- States reachable from the empty database by successful calls of the four writing routes. -/
inductive Reachable (w : Backend) : Db → Prop where
  | empty : Reachable w Db.empty
  | postClient {db : Db} (env : Env) (b : ClientBody) :
      Reachable w db → (postClient w env db b).2.status = 201 →
      Reachable w (postClient w env db b).1
  | putClient {db : Db} (env : Env) (id : Nat) (b : ClientBody) :
      Reachable w db → (putClient w env db id b).2.status = 200 →
      Reachable w (putClient w env db id b).1
  | deleteClient {db : Db} (env : Env) (id : Nat) :
      Reachable w db → (deleteClient w env db id).2.status = 200 →
      Reachable w (deleteClient w env db id).1
  | postHistory {db : Db} (env : Env) (id : Nat) (b : HistoryBody) :
      Reachable w db → (postHistory w env db id b).2.status = 201 →
      Reachable w (postHistory w env db id b).1

/-- The pull fields that `PUT /api/clients/:id` writes agree with the latest history of
the client: every row with the id that has `pull_history` rows finds, in the body, the
`pull_date`, `pull_by` and `version` of the most recently inserted one (each body field
read through `|| null`). Holds of every body when no row has the id or it has no history. -/
def PutKeepsMirror (db : Db) (id : Nat) (b : ClientBody) : Prop :=
  ∀ c ∈ db.clients, c.id = id → ∀ h, latestHistory db id = some h →
    b.latest_pull_date.orNull = h.pull_date ∧ b.latest_pull_by.orNull = h.pull_by ∧
    b.gsos_version.orNull = h.version

/-- As `Reachable`, the calls running one after the other, with `PUT` only when its pull
fields agree with the latest history of the client (`PutKeepsMirror`) and
`POST .../history` only on ids of existing clients. -/
inductive ReachableGuarded (w : Backend) : Db → Prop where
  | empty : ReachableGuarded w Db.empty
  | postClient {db : Db} (env : Env) (b : ClientBody) :
      ReachableGuarded w db → (postClient w env db b).2.status = 201 →
      ReachableGuarded w (postClient w env db b).1
  | putClient {db : Db} (env : Env) (id : Nat) (b : ClientBody) :
      ReachableGuarded w db → (putClient w env db id b).2.status = 200 →
      PutKeepsMirror db id b →
      ReachableGuarded w (putClient w env db id b).1
  | deleteClient {db : Db} (env : Env) (id : Nat) :
      ReachableGuarded w db → (deleteClient w env db id).2.status = 200 →
      ReachableGuarded w (deleteClient w env db id).1
  | postHistory {db : Db} (env : Env) (id : Nat) (b : HistoryBody) :
      ReachableGuarded w db → (postHistory w env db id b).2.status = 201 →
      (∃ c ∈ db.clients, c.id = id) →
      ReachableGuarded w (postHistory w env db id b).1

/-- The foreign key forbids deleting the client: it restricts, the row exists and is referenced. -/
def deleteBlocked (w : Backend) (db : Db) (id : Nat) : Prop :=
  w.fk = .restrict ∧ selectClient db id ≠ [] ∧ db.pull_history.any (fun h => h.client_id == id)

/-- The password columns written by `PUT /api/clients/:id`: hash and plaintext when the
`password` field is truthy, nothing otherwise. -/
def putPasswords (w : Backend) (b : ClientBody) : Option (JsValue × JsValue) :=
  match b.password with
  | .str p => if p ≠ "" then some (.str (w.hash p 10), .str p) else none
  | _ => none

/-- The database a successful `POST /api/clients` with password `p` leaves: the new
`clients` row, and the initial `pull_history` row when both pull fields are truthy. -/
def createdDb (w : Backend) (db : Db) (b : ClientBody) (p : String) : Db :=
  let result := insertClient db b.client_name b.domain_url b.client_id (.str (w.hash p 10))
    (.str p) b.latest_pull_date.orNull b.latest_pull_by.orNull b.gsos_version.orNull
  if b.latest_pull_date.truthy && b.latest_pull_by.truthy then
    addHistoryRow result.1 result.2 b.latest_pull_date b.latest_pull_by b.gsos_version.orNull
  else result.1

/-- The digits of a date string read as one number: `2024-05-01` ranks as `20240501`. -/
def isoDateRank : JsValue → Nat
  | .str s => (s.toList.filter Char.isDigit).foldl (fun n c => 10 * n + (c.toNat - 48)) 0
  | _ => 0

/-- A backend for the examples: the digest is the plaintext behind a bcrypt-style prefix,
dates are ranked by their digits, and the foreign key cascades. -/
def demoBackend : Backend := ⟨fun s _ => "$2a$10$" ++ s, isoDateRank, .cascade⟩

/-- A complete creation body with initial pull details. -/
def demoBody : ClientBody :=
  ⟨.str "acme", .str "acme.test", .str "c-1", .str "pw", .str "2024-05-01", .str "ann",
    .str "1.0"⟩

/-- An update body that omits the password and the three pull fields. -/
def demoEdit : ClientBody :=
  ⟨.str "acme2", .str "acme.test", .str "c-1", .undefined, .undefined, .undefined, .undefined⟩

/-- An update body whose `latest_pull_by` is supplied as the empty string. -/
def demoBlank : ClientBody :=
  ⟨.str "acme", .str "acme.test", .str "c-1", .undefined, .str "2024-06-01", .str "",
    .str "1.1"⟩

/-- A history body dated before the existing entry, with an empty `version`. -/
def demoOlder : HistoryBody := ⟨.str "2020-01-01", .str "bob", .str ""⟩

/-- A driver whose second `execute` of the request rejects. -/
def demoLost : Env := ⟨none, fun k => if k = 1 then some "Connection lost" else none, none⟩

/-- A creation body whose `latest_pull_date` is present but empty. -/
def demoBlankDate : ClientBody :=
  ⟨.str "beta", .str "beta.test", .str "c-2", .str "pw2", .str "", .str "ann", .str "1.0"⟩

/-- The database after creating `demoBody` in the empty database: client 1 with one history row. -/
def demoDb : Db := (postClient demoBackend Env.healthy Db.empty demoBody).1

/-- The database `demoDb` after a second history entry for client 1. -/
def demoDb2 : Db :=
  (postHistory demoBackend Env.healthy demoDb 1 ⟨.str "2024-11-30", .str "bob", .undefined⟩).1

/-- The database `demoDb` after client 1 is re-saved with its own pull details, and then
given a second history entry. -/
def demoDb3 : Db :=
  (postHistory demoBackend Env.healthy (putClient demoBackend Env.healthy demoDb 1 demoBody).1 1
    ⟨.str "2024-11-30", .str "bob", .undefined⟩).1

/-! ## Helper lemmas -/

theorem executeError_nil (env : Env) (k : Nat) : executeError env k [] = env.execute k := by
  simp [executeError, bindError]

theorem mem_selectClient {db : Db} {id : Nat} {c : ClientRow} :
    c ∈ selectClient db id ↔ c ∈ db.clients ∧ c.id = id := by
  simp [selectClient]

theorem selectClient_eq_nil {db : Db} {id : Nat} :
    selectClient db id = [] ↔ ∀ c ∈ db.clients, c.id ≠ id := by
  simp [selectClient, List.filter_eq_nil_iff]

/-! ## Client detail -/

/-- C7: when no driver call of the request rejects, `GET /api/clients/:id/details` answers
404 `Client not found` exactly when no `clients` row has the id, and otherwise 200 with a
stored row of that id (all columns, both password columns included); when a driver call
rejects, the answer is 500 and never 404. -/
theorem getClientDetails_not_found_iff (env : Env) (db : Db) (id : Nat) :
    (env.connect = none → env.execute 0 = none → env.close = none →
      ((getClientDetails env db id = ⟨404, .error "Client not found"⟩ ↔
          ∀ c ∈ db.clients, c.id ≠ id) ∧
       ((∃ c ∈ db.clients, c.id = id) →
          ∃ row, getClientDetails env db id = ⟨200, .client row⟩ ∧
            row ∈ db.clients ∧ row.id = id ∧ selectClient db id = row :: (selectClient db id).tail))) ∧
    ((env.connect ≠ none ∨ env.execute 0 ≠ none ∨ env.close ≠ none) →
      (getClientDetails env db id).status = 500 ∧
      (getClientDetails env db id).status ≠ 404) := by
  refine ⟨?_, ?_⟩
  · intro hc he hcl
    have hsel := @selectClient_eq_nil db id
    cases hrows : selectClient db id with
    | nil =>
      have hnone := hsel.mp hrows
      refine ⟨?_, ?_⟩
      · simp [getClientDetails, hc, he, hcl, executeError_nil, hrows]
        exact hnone
      · rintro ⟨c, hcm, hid⟩
        exact absurd hid (hnone c hcm)
    | cons row rest =>
      have hrow : row ∈ selectClient db id := by rw [hrows]; exact List.mem_cons_self _ _
      have hrow2 := mem_selectClient.mp hrow
      refine ⟨?_, ?_⟩
      · simp only [getClientDetails, hc, he, hcl, executeError_nil, hrows]
        constructor
        · intro h
          simp at h
        · intro h
          exact absurd hrow2.2 (h row hrow2.1)
      · intro _
        refine ⟨row, ?_, hrow2.1, hrow2.2, by simp⟩
        simp [getClientDetails, hc, he, hcl, executeError_nil, hrows]
  · intro hfail
    have h500 : (getClientDetails env db id).status = 500 := by
      unfold getClientDetails
      rw [executeError_nil]
      cases hc : env.connect with
      | some e => simp [serverError]
      | none =>
        cases he : env.execute 0 with
        | some e => simp [serverError]
        | none =>
          cases hcl : env.close with
          | some e => simp [serverError]
          | none => simp [hc, he, hcl] at hfail
    exact ⟨h500, by rw [h500]; decide⟩

/-! ## History listing -/

/-- C8: when no driver call rejects, `GET /api/clients/:id/history` answers 200 with
exactly the `pull_history` rows of that client id (a permutation of them), ordered by
`pull_date` descending; the array is empty when the client has no history rows, and, in a
database with referential integrity, when the client does not exist. -/
theorem getHistory_sorted_rows (w : Backend) (env : Env) (db : Db) (id : Nat)
    (hc : env.connect = none) (he : env.execute 0 = none) (hcl : env.close = none) :
    ∃ rows, getHistory w env db id = ⟨200, .history rows⟩ ∧
      rows.Perm (db.pull_history.filter (fun h => h.client_id == id)) ∧
      rows.Sorted (fun a b => w.dateRank b.pull_date ≤ w.dateRank a.pull_date) ∧
      ((∀ h ∈ db.pull_history, h.client_id ≠ id) → rows = []) ∧
      (db.RefIntegrity → (∀ c ∈ db.clients, c.id ≠ id) → rows = []) := by
  have hnil : (∀ h ∈ db.pull_history, h.client_id ≠ id) → selectHistory w db id = [] := by
    intro hno
    have : db.pull_history.filter (fun h => h.client_id == id) = [] := by
      simp [List.filter_eq_nil_iff]
      exact hno
    simp [selectHistory, this]
  refine ⟨selectHistory w db id, ?_, ?_, ?_, hnil, ?_⟩
  · simp [getHistory, hc, he, hcl, executeError_nil]
  · exact List.perm_insertionSort _ _
  · haveI : IsTotal PullHistoryRow
        (fun a b => w.dateRank b.pull_date ≤ w.dateRank a.pull_date) :=
      ⟨fun a b => Nat.le_total _ _⟩
    haveI : IsTrans PullHistoryRow
        (fun a b => w.dateRank b.pull_date ≤ w.dateRank a.pull_date) :=
      ⟨fun a b c hab hbc => Nat.le_trans hbc hab⟩
    exact List.sorted_insertionSort _ _
  · intro hri hno
    apply hnil
    intro h hh heq
    obtain ⟨c, hcm, hcid⟩ := hri h hh
    exact hno c hcm (hcid.trans heq)

/-- Witness of C8 on a database holding one client with two history rows. -/
theorem getHistory_sorted_rows_witness :
    ∃ rows, getHistory demoBackend Env.healthy demoDb2 1 = ⟨200, .history rows⟩ ∧
      rows.Perm (demoDb2.pull_history.filter (fun h => h.client_id == 1)) ∧
      rows.Sorted (fun a b =>
        demoBackend.dateRank b.pull_date ≤ demoBackend.dateRank a.pull_date) ∧
      ((∀ h ∈ demoDb2.pull_history, h.client_id ≠ 1) → rows = []) ∧
      (demoDb2.RefIntegrity → (∀ c ∈ demoDb2.clients, c.id ≠ 1) → rows = []) :=
  getHistory_sorted_rows demoBackend Env.healthy demoDb2 1 rfl rfl rfl

/-! ## Client deletion -/

/-- C9: when the database does not fail (no driver call rejects and the foreign key does
not forbid the deletion), `DELETE /api/clients/:id` answers 200 with the message
`Client deleted successfully` whether or not a row with the id existed; afterwards no
`clients` row has the id, and when none had it the `clients` table is unchanged. -/
theorem deleteClient_same_response (w : Backend) (env : Env) (db : Db) (id : Nat)
    (hc : env.connect = none) (he : env.execute 0 = none) (hcl : env.close = none)
    (hfk : ¬ deleteBlocked w db id) :
    (deleteClient w env db id).2 = ⟨200, .message "Client deleted successfully"⟩ ∧
    (∀ c ∈ (deleteClient w env db id).1.clients, c.id ≠ id) ∧
    (∀ c, c ∈ (deleteClient w env db id).1.clients ↔ c ∈ db.clients ∧ c.id ≠ id) ∧
    ((∀ c ∈ db.clients, c.id ≠ id) → (deleteClient w env db id).1.clients = db.clients) := by
  have hkeep : (∀ c ∈ db.clients, c.id ≠ id) →
      db.clients.filter (fun c => !(c.id == id)) = db.clients := by
    intro hno
    rw [List.filter_eq_self]
    intro c hcm
    simpa using hno c hcm
  have hrow : ∃ db1, deleteClientRow w db id = .ok db1 ∧
      db1.clients = db.clients.filter (fun c => !(c.id == id)) := by
    unfold deleteClientRow
    cases hm : w.fk with
    | none => exact ⟨_, rfl, rfl⟩
    | restrict =>
      have hnb : ¬ (selectClient db id ≠ [] ∧
          db.pull_history.any (fun h => h.client_id == id) = true) := by
        intro hb
        exact hfk ⟨hm, hb.1, hb.2⟩
      rw [if_neg hnb]
      exact ⟨_, rfl, rfl⟩
    | cascade =>
      by_cases hex : selectClient db id ≠ []
      · rw [if_pos hex]
        exact ⟨_, rfl, rfl⟩
      · rw [if_neg hex]
        exact ⟨_, rfl, rfl⟩
  obtain ⟨db1, hok, hcl1⟩ := hrow
  have hres : deleteClient w env db id = (db1, ⟨200, .message "Client deleted successfully"⟩) := by
    simp [deleteClient, hc, he, hcl, executeError_nil, hok, closeThen]
  rw [hres]
  refine ⟨rfl, ?_, ?_, ?_⟩
  · intro c hcm
    simp only [hcl1, List.mem_filter] at hcm
    simpa using hcm.2
  · intro c
    simp [hcl1, List.mem_filter]
  · intro hno
    simp only [hcl1]
    exact hkeep hno

/-- Witness of C9: deleting the absent id 7 from the one-client database. -/
theorem deleteClient_same_response_witness :
    (deleteClient demoBackend Env.healthy demoDb 7).2 =
        ⟨200, .message "Client deleted successfully"⟩ ∧
    (∀ c ∈ (deleteClient demoBackend Env.healthy demoDb 7).1.clients, c.id ≠ 7) ∧
    (∀ c, c ∈ (deleteClient demoBackend Env.healthy demoDb 7).1.clients ↔
        c ∈ demoDb.clients ∧ c.id ≠ 7) ∧
    ((∀ c ∈ demoDb.clients, c.id ≠ 7) →
        (deleteClient demoBackend Env.healthy demoDb 7).1.clients = demoDb.clients) :=
  deleteClient_same_response demoBackend Env.healthy demoDb 7 rfl rfl rfl
    (by intro h; exact absurd h.1 (by decide))

/-! ## Client update -/

theorem putClient_of_ok (w : Backend) (env : Env) (db : Db) (id : Nat) (b : ClientBody)
    (h : (putClient w env db id b).2.status = 200) :
    putClient w env db id b =
      (updateClient db id b.client_name b.domain_url b.client_id b.latest_pull_date.orNull
          b.latest_pull_by.orNull b.gsos_version.orNull (putPasswords w b),
        ⟨200, .message "Client updated successfully"⟩) := by
  unfold putClient at h ⊢
  cases hc : env.connect with
  | some e => simp [hc, serverError] at h
  | none =>
    cases hcl : env.close with
    | some e =>
      simp only [hc, closeThen, hcl] at h
      split at h
      · split at h
        · simp [serverError] at h
        · split at h <;> simp [serverError] at h
      · split at h <;> simp [serverError] at h
    | none =>
      simp only [hc, closeThen, hcl] at h ⊢
      cases hp : b.password with
      | undefined =>
        simp only [hp, JsValue.truthy, putPasswords, Bool.false_eq_true, ↓reduceIte] at h ⊢
        generalize executeError env 0 _ = x at h ⊢
        cases x <;> simp [serverError] at h ⊢
      | null =>
        simp only [hp, JsValue.truthy, putPasswords, Bool.false_eq_true, ↓reduceIte] at h ⊢
        generalize executeError env 0 _ = x at h ⊢
        cases x <;> simp [serverError] at h ⊢
      | str p =>
        by_cases hpe : p = ""
        · subst hpe
          simp only [hp, JsValue.truthy, putPasswords, ne_eq, not_true_eq_false, decide_False,
            Bool.false_eq_true, ↓reduceIte] at h ⊢
          generalize executeError env 0 _ = x at h ⊢
          cases x <;> simp [serverError] at h ⊢
        · simp only [hp, JsValue.truthy, putPasswords, bcryptHash, ne_eq, hpe,
            not_false_eq_true, decide_True, ↓reduceIte] at h ⊢
          generalize executeError env 0 _ = x at h ⊢
          cases x <;> simp [serverError] at h ⊢

theorem orNull_ne_undefined (v : JsValue) : v.orNull ≠ .undefined := by
  cases v with
  | undefined => simp [JsValue.orNull, JsValue.truthy]
  | null => simp [JsValue.orNull, JsValue.truthy]
  | str s => by_cases hs : s = "" <;> simp [JsValue.orNull, JsValue.truthy, hs]

theorem putClient_ok (w : Backend) (env : Env) (db : Db) (id : Nat) (b : ClientBody)
    (hc : env.connect = none) (he : env.execute 0 = none) (hcl : env.close = none)
    (hn : b.client_name ≠ .undefined) (hd : b.domain_url ≠ .undefined)
    (hi : b.client_id ≠ .undefined) :
    (putClient w env db id b).2.status = 200 := by
  have h1 := orNull_ne_undefined b.latest_pull_date
  have h2 := orNull_ne_undefined b.latest_pull_by
  have h3 := orNull_ne_undefined b.gsos_version
  unfold putClient
  simp only [hc, closeThen, hcl]
  cases hp : b.password with
  | undefined =>
    simp [JsValue.truthy, executeError, bindError, he, hn.symm, hd.symm, hi.symm, h1.symm,
      h2.symm, h3.symm, Ne.symm]
  | null =>
    simp [JsValue.truthy, executeError, bindError, he, hn.symm, hd.symm, hi.symm, h1.symm,
      h2.symm, h3.symm]
  | str p =>
    by_cases hpe : p = ""
    · simp [JsValue.truthy, hpe, executeError, bindError, he, hn.symm, hd.symm, hi.symm,
        h1.symm, h2.symm, h3.symm]
    · simp [JsValue.truthy, hpe, bcryptHash, executeError, bindError, he, hn.symm, hd.symm,
        hi.symm, h1.symm, h2.symm, h3.symm]

theorem setClientFields_id (c : ClientRow) (n d i lpd lpb v : JsValue)
    (pw : Option (JsValue × JsValue)) : (setClientFields c n d i lpd lpb v pw).id = c.id := by
  cases pw with
  | none => rfl
  | some q => rfl

theorem mem_updateClient {db : Db} {id : Nat} {n d i lpd lpb v : JsValue}
    {pw : Option (JsValue × JsValue)} {c : ClientRow}
    (hm : c ∈ (updateClient db id n d i lpd lpb v pw).clients) (hid : c.id = id) :
    ∃ c0 ∈ db.clients, c0.id = id ∧ c = setClientFields c0 n d i lpd lpb v pw := by
  simp only [updateClient, List.mem_map] at hm
  obtain ⟨c0, hc0, heq⟩ := hm
  by_cases h0 : c0.id = id
  · refine ⟨c0, hc0, h0, ?_⟩
    simp [h0] at heq
    exact heq.symm
  · simp [h0] at heq
    subst heq
    exact absurd hid h0

/-- C2: after a successful `PUT /api/clients/:id`, when the `password` field is absent or
the empty string every client row keeps its `password` and `original_password`; when it
is a non-empty string `p`, every row with the id has `original_password = p` and
`password = hash(p, 10)`. The update neither adds nor removes rows. -/
theorem putClient_password_columns (w : Backend) (env : Env) (db : Db) (id : Nat)
    (b : ClientBody) (h : (putClient w env db id b).2.status = 200) :
    ((b.password = .undefined ∨ b.password = .str "") →
      (putClient w env db id b).1.clients.map
          (fun c => (c.id, c.password, c.original_password)) =
        db.clients.map (fun c => (c.id, c.password, c.original_password))) ∧
    (∀ p, b.password = .str p → p ≠ "" →
      ∀ c ∈ (putClient w env db id b).1.clients, c.id = id →
        c.original_password = .str p ∧ c.password = .str (w.hash p 10)) ∧
    (putClient w env db id b).1.clients.map (fun c => c.id) =
      db.clients.map (fun c => c.id) := by
  rw [putClient_of_ok w env db id b h]
  refine ⟨?_, ?_, ?_⟩
  · intro hp
    have hpw : putPasswords w b = none := by
      rcases hp with hp | hp <;> simp [putPasswords, hp]
    simp only [updateClient, hpw, List.map_map]
    apply List.map_congr_left
    intro c _
    by_cases hid : c.id = id <;> simp [hid, setClientFields]
  · intro p hp hpe c hm hid
    have hpw : putPasswords w b = some (.str (w.hash p 10), .str p) := by
      simp [putPasswords, hp, hpe]
    obtain ⟨c0, _, _, heq⟩ := mem_updateClient hm hid
    subst heq
    simp [hpw, setClientFields]
  · simp only [updateClient, List.map_map]
    apply List.map_congr_left
    intro c _
    by_cases hid : c.id = id <;> simp [hid, setClientFields_id]

/-- Witness of C2: an update of client 1 that omits the password. -/
theorem putClient_password_columns_witness :
    ((demoEdit.password = .undefined ∨ demoEdit.password = .str "") →
      (putClient demoBackend Env.healthy demoDb 1 demoEdit).1.clients.map
          (fun c => (c.id, c.password, c.original_password)) =
        demoDb.clients.map (fun c => (c.id, c.password, c.original_password))) ∧
    (∀ p, demoEdit.password = .str p → p ≠ "" →
      ∀ c ∈ (putClient demoBackend Env.healthy demoDb 1 demoEdit).1.clients, c.id = 1 →
        c.original_password = .str p ∧ c.password = .str (demoBackend.hash p 10)) ∧
    (putClient demoBackend Env.healthy demoDb 1 demoEdit).1.clients.map (fun c => c.id) =
      demoDb.clients.map (fun c => c.id) :=
  putClient_password_columns demoBackend Env.healthy demoDb 1 demoEdit (by decide)

/-- C6, as stated, fails: client 1 exists and the body supplies `latest_pull_by` as the
empty string; the update answers 200 and stores `null`, not the supplied value. -/
theorem putClient_blank_stored_null :
    (∃ c ∈ demoDb.clients, c.id = 1) ∧
    demoBlank.latest_pull_by = .str "" ∧
    (putClient demoBackend Env.healthy demoDb 1 demoBlank).2.status = 200 ∧
    (∀ c ∈ (putClient demoBackend Env.healthy demoDb 1 demoBlank).1.clients, c.id = 1 →
      c.latest_pull_by = .null ∧ c.latest_pull_by ≠ demoBlank.latest_pull_by) := by
  decide

/-- C6, amended: when no driver call rejects and the body supplies `client_name`,
`domain_url` and `client_id`, `PUT /api/clients/:id` on an existing id answers 200 and
every row with the id gets the supplied `client_name`, `domain_url`, `client_id`, and
for `latest_pull_date`, `latest_pull_by`, `gsos_version` the supplied value when it is a
non-empty string and `null` when it is omitted, `null` or empty. -/
theorem putClient_sets_fields (w : Backend) (env : Env) (db : Db) (id : Nat) (b : ClientBody)
    (hc : env.connect = none) (he : env.execute 0 = none) (hcl : env.close = none)
    (hn : b.client_name ≠ .undefined) (hd : b.domain_url ≠ .undefined)
    (hi : b.client_id ≠ .undefined) (hex : ∃ c ∈ db.clients, c.id = id) :
    (putClient w env db id b).2 = ⟨200, .message "Client updated successfully"⟩ ∧
    (∃ c ∈ (putClient w env db id b).1.clients, c.id = id) ∧
    (∀ c ∈ (putClient w env db id b).1.clients, c.id = id →
      c.client_name = b.client_name ∧ c.domain_url = b.domain_url ∧
      c.client_id = b.client_id ∧
      c.latest_pull_date = (if b.latest_pull_date.truthy then b.latest_pull_date else .null) ∧
      c.latest_pull_by = (if b.latest_pull_by.truthy then b.latest_pull_by else .null) ∧
      c.gsos_version = (if b.gsos_version.truthy then b.gsos_version else .null)) := by
  have hok := putClient_ok w env db id b hc he hcl hn hd hi
  rw [putClient_of_ok w env db id b hok]
  refine ⟨rfl, ?_, ?_⟩
  · obtain ⟨c, hcm, hid⟩ := hex
    refine ⟨setClientFields c b.client_name b.domain_url b.client_id b.latest_pull_date.orNull
      b.latest_pull_by.orNull b.gsos_version.orNull (putPasswords w b), ?_, ?_⟩
    · simp only [updateClient, List.mem_map]
      exact ⟨c, hcm, by simp [hid]⟩
    · rw [setClientFields_id]; exact hid
  · intro c hm hid
    obtain ⟨c0, _, _, heq⟩ := mem_updateClient hm hid
    subst heq
    cases hpw : putPasswords w b <;> simp [setClientFields, JsValue.orNull]

/-- Witness of C6 amended: the update `demoBlank` of client 1. -/
theorem putClient_sets_fields_witness :
    (putClient demoBackend Env.healthy demoDb 1 demoBlank).2 =
      ⟨200, .message "Client updated successfully"⟩ ∧
    (∃ c ∈ (putClient demoBackend Env.healthy demoDb 1 demoBlank).1.clients, c.id = 1) ∧
    (∀ c ∈ (putClient demoBackend Env.healthy demoDb 1 demoBlank).1.clients, c.id = 1 →
      c.client_name = demoBlank.client_name ∧ c.domain_url = demoBlank.domain_url ∧
      c.client_id = demoBlank.client_id ∧
      c.latest_pull_date =
        (if demoBlank.latest_pull_date.truthy then demoBlank.latest_pull_date else .null) ∧
      c.latest_pull_by =
        (if demoBlank.latest_pull_by.truthy then demoBlank.latest_pull_by else .null) ∧
      c.gsos_version =
        (if demoBlank.gsos_version.truthy then demoBlank.gsos_version else .null)) :=
  putClient_sets_fields demoBackend Env.healthy demoDb 1 demoBlank rfl rfl rfl
    (by decide) (by decide) (by decide) (by decide)

/-! ## History append -/

theorem postHistory_of_ok (w : Backend) (env : Env) (db : Db) (id : Nat) (b : HistoryBody)
    (h : (postHistory w env db id b).2.status = 201) :
    postHistory w env db id b =
        (updateLatestPull (addHistoryRow db id b.pull_date b.pull_by b.version.orNull) id
            b.pull_date b.pull_by b.version.orNull,
          ⟨201, .message "Pull history added successfully"⟩) ∧
      executeError env 0 [b.pull_date, b.pull_by, b.version.orNull] = none ∧
      insertHistory w db id b.pull_date b.pull_by b.version.orNull =
        .ok (addHistoryRow db id b.pull_date b.pull_by b.version.orNull) ∧
      executeError env 1 [b.pull_date, b.pull_by, b.version.orNull] = none := by
  unfold postHistory at h ⊢
  cases hc : env.connect with
  | some e => simp [hc, serverError] at h
  | none =>
    simp only [hc] at h ⊢
    cases h0 : executeError env 0 [b.pull_date, b.pull_by, b.version.orNull] with
    | some e => simp [h0, serverError] at h
    | none =>
      simp only [h0] at h ⊢
      unfold insertHistory at h ⊢
      by_cases hfk : w.fk ≠ .none ∧ selectClient db id = []
      · simp [hfk, serverError] at h
      · simp only [hfk, if_false] at h ⊢
        cases h1 : executeError env 1 [b.pull_date, b.pull_by, b.version.orNull] with
        | some e => simp [h1, serverError] at h
        | none =>
          simp only [h1, closeThen] at h ⊢
          cases hcl : env.close with
          | some e => simp [hcl, serverError] at h
          | none => simp

theorem mem_updateLatestPull {db : Db} {id : Nat} {pd pb v : JsValue} {c : ClientRow}
    (hm : c ∈ (updateLatestPull db id pd pb v).clients) (hid : c.id = id) :
    c.latest_pull_date = pd ∧ c.latest_pull_by = pb ∧ c.gsos_version = v := by
  simp only [updateLatestPull, List.mem_map] at hm
  obtain ⟨c0, _, heq⟩ := hm
  by_cases h0 : c0.id = id
  · simp [h0] at heq
    subst heq
    exact ⟨rfl, rfl, rfl⟩
  · simp [h0] at heq
    subst heq
    exact absurd hid h0

/-- C3, as stated, fails: a successful history post for client 1 with `version` supplied
as the empty string leaves `gsos_version = null`, not the posted value. -/
theorem postHistory_blank_version_nulled :
    (∃ c ∈ demoDb.clients, c.id = 1) ∧
    demoOlder.version = .str "" ∧
    (postHistory demoBackend Env.healthy demoDb 1 demoOlder).2.status = 201 ∧
    (∀ c ∈ (postHistory demoBackend Env.healthy demoDb 1 demoOlder).1.clients, c.id = 1 →
      c.gsos_version = .null ∧ c.gsos_version ≠ demoOlder.version) := by
  decide

/-- C3, amended: after a successful `POST /api/clients/X/history` for an existing client
`X`, every row of `X` has `latest_pull_date` and `latest_pull_by` equal to the posted
`pull_date` and `pull_by`, and `gsos_version` equal to the posted `version` when that is
a non-empty string and `null` otherwise, whatever `pull_history` rows `X` already has;
the posted row is appended to `pull_history`. -/
theorem postHistory_overwrites_latest (w : Backend) (env : Env) (db : Db) (id : Nat)
    (b : HistoryBody) (hex : ∃ c ∈ db.clients, c.id = id)
    (h : (postHistory w env db id b).2.status = 201) :
    (∃ c ∈ (postHistory w env db id b).1.clients, c.id = id) ∧
    (∀ c ∈ (postHistory w env db id b).1.clients, c.id = id →
      c.latest_pull_date = b.pull_date ∧ c.latest_pull_by = b.pull_by ∧
      c.gsos_version = (if b.version.truthy then b.version else .null)) ∧
    (postHistory w env db id b).1.pull_history =
      db.pull_history ++ [⟨db.nextHistoryId, id, b.pull_date, b.pull_by,
        if b.version.truthy then b.version else .null⟩] := by
  rw [(postHistory_of_ok w env db id b h).1]
  refine ⟨?_, ?_, rfl⟩
  · obtain ⟨c, hcm, hid⟩ := hex
    refine ⟨⟨c.id, c.client_name, c.domain_url, c.client_id, c.password, c.original_password,
      b.pull_date, b.pull_by, b.version.orNull⟩, ?_, hid⟩
    simp only [updateLatestPull, addHistoryRow, List.mem_map]
    exact ⟨c, hcm, by simp [hid]⟩
  · intro c hm hid
    exact mem_updateLatestPull hm hid

/-- Witness of C3 amended: client 1 has an entry dated 2024-05-01 and receives one dated
2020-01-01. -/
theorem postHistory_overwrites_latest_witness :
    (∃ c ∈ (postHistory demoBackend Env.healthy demoDb 1 demoOlder).1.clients, c.id = 1) ∧
    (∀ c ∈ (postHistory demoBackend Env.healthy demoDb 1 demoOlder).1.clients, c.id = 1 →
      c.latest_pull_date = demoOlder.pull_date ∧ c.latest_pull_by = demoOlder.pull_by ∧
      c.gsos_version = (if demoOlder.version.truthy then demoOlder.version else .null)) ∧
    (postHistory demoBackend Env.healthy demoDb 1 demoOlder).1.pull_history =
      demoDb.pull_history ++ [⟨demoDb.nextHistoryId, 1, demoOlder.pull_date, demoOlder.pull_by,
        if demoOlder.version.truthy then demoOlder.version else .null⟩] :=
  postHistory_overwrites_latest demoBackend Env.healthy demoDb 1 demoOlder (by decide) (by decide)

/-- C10: `POST /api/clients/:id/history` answers 201 only when the insert and the update
both succeeded, and 500 when either statement fails; when the insert succeeds and the
update fails the answer is 500, the new `pull_history` row stays and the `clients` table
is as before the call (no rollback), and such an execution exists. -/
theorem postHistory_not_atomic :
    (∀ (w : Backend) (env : Env) (db : Db) (id : Nat) (b : HistoryBody),
      (postHistory w env db id b).2.status = 201 →
        executeError env 0 [b.pull_date, b.pull_by, b.version.orNull] = none ∧
        insertHistory w db id b.pull_date b.pull_by b.version.orNull =
          .ok (addHistoryRow db id b.pull_date b.pull_by b.version.orNull) ∧
        executeError env 1 [b.pull_date, b.pull_by, b.version.orNull] = none ∧
        (postHistory w env db id b).1 =
          updateLatestPull (addHistoryRow db id b.pull_date b.pull_by b.version.orNull) id
            b.pull_date b.pull_by b.version.orNull) ∧
    (∀ (w : Backend) (env : Env) (db : Db) (id : Nat) (b : HistoryBody),
      (executeError env 0 [b.pull_date, b.pull_by, b.version.orNull] ≠ none ∨
        (∃ e, insertHistory w db id b.pull_date b.pull_by b.version.orNull = .error e) ∨
        executeError env 1 [b.pull_date, b.pull_by, b.version.orNull] ≠ none) →
      (postHistory w env db id b).2.status = 500) ∧
    (∀ (w : Backend) (env : Env) (db db1 : Db) (id : Nat) (b : HistoryBody) (e : String),
      env.connect = none →
      executeError env 0 [b.pull_date, b.pull_by, b.version.orNull] = none →
      insertHistory w db id b.pull_date b.pull_by b.version.orNull = .ok db1 →
      executeError env 1 [b.pull_date, b.pull_by, b.version.orNull] = some e →
      (postHistory w env db id b).2 = ⟨500, .error e⟩ ∧
      (postHistory w env db id b).1.pull_history =
        db.pull_history ++ [⟨db.nextHistoryId, id, b.pull_date, b.pull_by, b.version.orNull⟩] ∧
      (postHistory w env db id b).1.clients = db.clients) ∧
    (∃ (w : Backend) (env : Env) (db : Db) (id : Nat) (b : HistoryBody),
      (∃ c ∈ db.clients, c.id = id ∧ c.latest_pull_date ≠ b.pull_date) ∧
      (∃ db1, insertHistory w db id b.pull_date b.pull_by b.version.orNull = .ok db1) ∧
      executeError env 0 [b.pull_date, b.pull_by, b.version.orNull] = none ∧
      executeError env 1 [b.pull_date, b.pull_by, b.version.orNull] ≠ none ∧
      (postHistory w env db id b).2.status = 500 ∧
      (postHistory w env db id b).1.pull_history =
        db.pull_history ++ [⟨db.nextHistoryId, id, b.pull_date, b.pull_by, b.version.orNull⟩] ∧
      (postHistory w env db id b).1.clients = db.clients) := by
  refine ⟨?_, ?_, ?_, ?_⟩
  · intro w env db id b h
    obtain ⟨h1, h2, h3, h4⟩ := postHistory_of_ok w env db id b h
    exact ⟨h2, h3, h4, by rw [h1]⟩
  · intro w env db id b hfail
    by_contra hne
    unfold postHistory at hne
    cases hc : env.connect with
    | some e => simp [hc, serverError] at hne
    | none =>
      simp only [hc] at hne
      cases h0 : executeError env 0 [b.pull_date, b.pull_by, b.version.orNull] with
      | some e => simp [h0, serverError] at hne
      | none =>
        simp only [h0] at hne
        cases hi : insertHistory w db id b.pull_date b.pull_by b.version.orNull with
        | error e => simp [hi, serverError] at hne
        | ok db1 =>
          simp only [hi] at hne
          cases h1 : executeError env 1 [b.pull_date, b.pull_by, b.version.orNull] with
          | some e => simp [h1, serverError] at hne
          | none => simp [h0, hi, h1] at hfail
  · intro w env db db1 id b e hc h0 hi h1
    have hdb1 : db1 = addHistoryRow db id b.pull_date b.pull_by b.version.orNull := by
      unfold insertHistory at hi
      split at hi
      · simp at hi
      · simpa using hi.symm
    subst hdb1
    simp [postHistory, hc, h0, hi, h1, serverError, addHistoryRow]
  · exact ⟨demoBackend, demoLost, demoDb, 1, demoOlder, by decide, ⟨_, rfl⟩, by decide,
      by decide, by decide, by decide, by decide⟩

/-! ## Client creation -/

theorem selectClient_insertClient_ne_nil (db : Db) (n d i pw opw lpd lpb v : JsValue) :
    selectClient (insertClient db n d i pw opw lpd lpb v).1 db.nextClientId ≠ [] := by
  intro h
  rw [selectClient_eq_nil] at h
  exact h ⟨db.nextClientId, n, d, i, pw, opw, lpd, lpb, v⟩ (by simp [insertClient]) rfl

theorem postClient_of_ok (w : Backend) (env : Env) (db : Db) (b : ClientBody)
    (h : (postClient w env db b).2.status = 201) :
    ∃ p, b.password = .str p ∧
      postClient w env db b =
        (createdDb w db b p, ⟨201, .created db.nextClientId "Client added successfully"⟩) := by
  unfold postClient at h ⊢
  cases hp : b.password with
  | undefined => simp [hp, bcryptHash, serverError] at h
  | null => simp [hp, bcryptHash, serverError] at h
  | str p =>
    refine ⟨p, rfl, ?_⟩
    simp only [hp, bcryptHash] at h ⊢
    cases hc : env.connect with
    | some e => simp [hc, serverError] at h
    | none =>
      simp only [hc] at h ⊢
      generalize hx0 : executeError env 0 _ = x0 at h ⊢
      cases x0 with
      | some e => simp [serverError] at h
      | none =>
        simp only [createdDb] at h ⊢
        by_cases ht : (b.latest_pull_date.truthy && b.latest_pull_by.truthy) = true
        · simp only [ht, if_true] at h ⊢
          generalize hx1 : executeError env 1 _ = x1 at h ⊢
          cases x1 with
          | some e => simp [serverError] at h
          | none =>
            have hfk := selectClient_insertClient_ne_nil db b.client_name b.domain_url
              b.client_id (.str (w.hash p 10)) (.str p) b.latest_pull_date.orNull
              b.latest_pull_by.orNull b.gsos_version.orNull
            have hins : (insertClient db b.client_name b.domain_url b.client_id
                (.str (w.hash p 10)) (.str p) b.latest_pull_date.orNull
                b.latest_pull_by.orNull b.gsos_version.orNull).2 = db.nextClientId := rfl
            simp only [insertHistory, hins, hfk, and_false, if_false, closeThen] at h ⊢
            cases hcl : env.close with
            | some e => simp [hcl, serverError] at h
            | none => rfl
        · simp only [ht, if_false, closeThen] at h ⊢
          cases hcl : env.close with
          | some e => simp [hcl, serverError] at h
          | none => rfl

/-- C5, as stated, fails: the creation succeeds with both `latest_pull_date` and
`latest_pull_by` present in the body (the date as the empty string), and no
`pull_history` row is inserted. -/
theorem postClient_blank_date_no_row :
    demoBlankDate.latest_pull_date ≠ .undefined ∧
    demoBlankDate.latest_pull_by ≠ .undefined ∧
    (postClient demoBackend Env.healthy demoDb demoBlankDate).2.status = 201 ∧
    (postClient demoBackend Env.healthy demoDb demoBlankDate).1.pull_history =
      demoDb.pull_history := by
  decide

/-- C5, amended: a successful `POST /api/clients` inserts a `pull_history` row if and only
if `latest_pull_date` and `latest_pull_by` are both non-empty strings; then exactly one
row is appended, with `client_id` the id of the new client, `pull_date =
latest_pull_date`, `pull_by = latest_pull_by` and `version` equal to `gsos_version` when
that is a non-empty string and `null` otherwise; when not, `pull_history` is unchanged. -/
theorem postClient_history_row (w : Backend) (env : Env) (db : Db) (b : ClientBody)
    (h : (postClient w env db b).2.status = 201) :
    (postClient w env db b).2 =
      ⟨201, .created db.nextClientId "Client added successfully"⟩ ∧
    ((postClient w env db b).1.pull_history ≠ db.pull_history ↔
      (b.latest_pull_date.truthy = true ∧ b.latest_pull_by.truthy = true)) ∧
    ((b.latest_pull_date.truthy = true ∧ b.latest_pull_by.truthy = true) →
      (postClient w env db b).1.pull_history =
        db.pull_history ++ [⟨db.nextHistoryId, db.nextClientId, b.latest_pull_date,
          b.latest_pull_by, if b.gsos_version.truthy then b.gsos_version else .null⟩]) ∧
    (¬ (b.latest_pull_date.truthy = true ∧ b.latest_pull_by.truthy = true) →
      (postClient w env db b).1.pull_history = db.pull_history) := by
  obtain ⟨p, _, heq⟩ := postClient_of_ok w env db b h
  rw [heq]
  by_cases ht : b.latest_pull_date.truthy = true ∧ b.latest_pull_by.truthy = true
  · have hb : (b.latest_pull_date.truthy && b.latest_pull_by.truthy) = true := by
      simp [ht.1, ht.2]
    have hrows : (createdDb w db b p).pull_history =
        db.pull_history ++ [⟨db.nextHistoryId, db.nextClientId, b.latest_pull_date,
          b.latest_pull_by, if b.gsos_version.truthy then b.gsos_version else .null⟩] := by
      simp only [createdDb, hb, if_true]
      rfl
    refine ⟨rfl, ?_, fun _ => hrows, fun hn => absurd ht hn⟩
    simp only [hrows, ht, and_self, iff_true]
    intro hcontra
    have := congrArg List.length hcontra
    simp at this
  · have hb : ¬ (b.latest_pull_date.truthy && b.latest_pull_by.truthy) = true := by
      simpa using ht
    have hrows : (createdDb w db b p).pull_history = db.pull_history := by
      simp only [createdDb, hb, if_false]
      rfl
    refine ⟨rfl, ?_, fun hy => absurd hy ht, fun _ => hrows⟩
    simp only [hrows, ne_eq, not_true_eq_false, false_iff]
    exact ht

/-- Witness of C5 amended: the creation `demoBody` in the empty database. -/
theorem postClient_history_row_witness :
    (postClient demoBackend Env.healthy Db.empty demoBody).2 =
      ⟨201, .created Db.empty.nextClientId "Client added successfully"⟩ ∧
    ((postClient demoBackend Env.healthy Db.empty demoBody).1.pull_history ≠
        Db.empty.pull_history ↔
      (demoBody.latest_pull_date.truthy = true ∧ demoBody.latest_pull_by.truthy = true)) ∧
    ((demoBody.latest_pull_date.truthy = true ∧ demoBody.latest_pull_by.truthy = true) →
      (postClient demoBackend Env.healthy Db.empty demoBody).1.pull_history =
        Db.empty.pull_history ++ [⟨Db.empty.nextHistoryId, Db.empty.nextClientId,
          demoBody.latest_pull_date, demoBody.latest_pull_by,
          if demoBody.gsos_version.truthy then demoBody.gsos_version else .null⟩]) ∧
    (¬ (demoBody.latest_pull_date.truthy = true ∧ demoBody.latest_pull_by.truthy = true) →
      (postClient demoBackend Env.healthy Db.empty demoBody).1.pull_history =
        Db.empty.pull_history) :=
  postClient_history_row demoBackend Env.healthy Db.empty demoBody (by decide)

/-- C4: if `POST /api/clients` with password `p` succeeds with new id `i` in a database
whose ids are below the AUTO_INCREMENT counter, then `GET /api/clients/i/details` right
after it (no driver call rejecting) answers 200 with a row of id `i` carrying the posted
`client_name`, `domain_url` and `client_id`, `original_password = p` and
`password = hash(p, 10)`; the digest of `p` being different from `p` (hypothesis
`hdigest` on bcrypt), the `password` field is not equal to `p`. -/
theorem postClient_then_details (w : Backend) (env env2 : Env) (db : Db) (b : ClientBody)
    (p : String) (i : Nat) (msg : String)
    (hp : b.password = .str p)
    (hpost : (postClient w env db b).2 = ⟨201, .created i msg⟩)
    (hfresh : ∀ c ∈ db.clients, c.id < db.nextClientId)
    (hc : env2.connect = none) (he : env2.execute 0 = none) (hcl : env2.close = none)
    (hdigest : w.hash p 10 ≠ p) :
    ∃ row, getClientDetails env2 (postClient w env db b).1 i = ⟨200, .client row⟩ ∧
      row.id = i ∧ row.client_name = b.client_name ∧ row.domain_url = b.domain_url ∧
      row.client_id = b.client_id ∧ row.original_password = .str p ∧
      row.password = .str (w.hash p 10) ∧ row.password ≠ .str p := by
  have hst : (postClient w env db b).2.status = 201 := by rw [hpost]
  obtain ⟨p1, hp1, heq⟩ := postClient_of_ok w env db b hst
  have hpp : p1 = p := by
    rw [hp] at hp1
    exact (JsValue.str.inj hp1).symm
  subst hpp
  rw [heq] at hpost
  have hi : db.nextClientId = i := by
    have := congrArg Response.body hpost
    simp at this
    exact this.1
  subst hi
  rw [heq]
  have hold : ∀ a ∈ db.clients, ¬ a.id = db.nextClientId := by
    intro c hcm
    have := hfresh c hcm
    omega
  have hsel : selectClient (createdDb w db b p1) db.nextClientId =
      [⟨db.nextClientId, b.client_name, b.domain_url, b.client_id, .str (w.hash p1 10),
        .str p1, b.latest_pull_date.orNull, b.latest_pull_by.orNull,
        b.gsos_version.orNull⟩] := by
    unfold createdDb selectClient
    by_cases ht : (b.latest_pull_date.truthy && b.latest_pull_by.truthy) = true
    · simp only [ht, if_true, addHistoryRow, insertClient, List.filter_append]
      simpa using hold
    · simp only [ht, if_false, insertClient, List.filter_append]
      simpa using hold
  refine ⟨⟨db.nextClientId, b.client_name, b.domain_url, b.client_id, .str (w.hash p1 10),
    .str p1, b.latest_pull_date.orNull, b.latest_pull_by.orNull, b.gsos_version.orNull⟩,
    ?_, rfl, rfl, rfl, rfl, rfl, rfl, ?_⟩
  · simp [getClientDetails, hc, he, hcl, executeError_nil, hsel]
  · intro hcontra
    exact hdigest (JsValue.str.inj hcontra)

/-- Witness of C4: the creation `demoBody` in the empty database, then the detail lookup. -/
theorem postClient_then_details_witness :
    ∃ row, getClientDetails Env.healthy
        (postClient demoBackend Env.healthy Db.empty demoBody).1 1 = ⟨200, .client row⟩ ∧
      row.id = 1 ∧ row.client_name = demoBody.client_name ∧
      row.domain_url = demoBody.domain_url ∧ row.client_id = demoBody.client_id ∧
      row.original_password = .str "pw" ∧
      row.password = .str (demoBackend.hash "pw" 10) ∧ row.password ≠ .str "pw" :=
  postClient_then_details demoBackend Env.healthy Env.healthy Db.empty demoBody "pw" 1
    "Client added successfully" rfl rfl (by decide) rfl rfl rfl (by decide)

/-! ## The mirrored-field invariant -/

theorem latestHistory_congr {db db1 : Db} (h : db1.pull_history = db.pull_history) (j : Nat) :
    latestHistory db1 j = latestHistory db j := by
  simp [latestHistory, h]

theorem latestHistory_append {db db1 : Db} {r : PullHistoryRow}
    (h : db1.pull_history = db.pull_history ++ [r]) (j : Nat) :
    latestHistory db1 j = if r.client_id = j then some r else latestHistory db j := by
  unfold latestHistory
  rw [h, List.filter_append]
  by_cases hr : r.client_id = j
  · simp [hr, List.filter_cons]
  · simp [hr, List.filter_cons]

theorem latestHistory_filter_ne {db db1 : Db} {id : Nat}
    (h : db1.pull_history = db.pull_history.filter (fun r => !(r.client_id == id)))
    {j : Nat} (hj : j ≠ id) : latestHistory db1 j = latestHistory db j := by
  unfold latestHistory
  rw [h, List.filter_filter]
  congr 1
  apply List.filter_congr
  intro r _
  by_cases hr : r.client_id = j
  · simp [hr, hj]
  · simp [hr]

theorem latestHistory_none_of_fresh {db : Db} (hf : db.Fresh) :
    latestHistory db db.nextClientId = none := by
  unfold latestHistory
  have : db.pull_history.filter (fun h => h.client_id == db.nextClientId) = [] := by
    rw [List.filter_eq_nil_iff]
    intro r hr
    have := hf.2 r hr
    simp
    omega
  simp [this]

theorem createdDb_invariant (w : Backend) (db : Db) (b : ClientBody) (p : String)
    (hf : db.Fresh) (hm : Mirrored db) :
    (createdDb w db b p).Fresh ∧ Mirrored (createdDb w db b p) := by
  have hnone := latestHistory_none_of_fresh hf
  by_cases ht : (b.latest_pull_date.truthy && b.latest_pull_by.truthy) = true
  · have hcl : (createdDb w db b p).clients = db.clients ++
        [⟨db.nextClientId, b.client_name, b.domain_url, b.client_id, .str (w.hash p 10),
          .str p, b.latest_pull_date.orNull, b.latest_pull_by.orNull,
          b.gsos_version.orNull⟩] := by
      simp only [createdDb, ht, if_true]; rfl
    have hph : (createdDb w db b p).pull_history = db.pull_history ++
        [⟨db.nextHistoryId, db.nextClientId, b.latest_pull_date, b.latest_pull_by,
          b.gsos_version.orNull⟩] := by
      simp only [createdDb, ht, if_true]; rfl
    have hnx : (createdDb w db b p).nextClientId = db.nextClientId + 1 := by
      simp only [createdDb, ht, if_true]; rfl
    have htd : b.latest_pull_date.truthy = true := by
      simp only [Bool.and_eq_true] at ht; exact ht.1
    have htb : b.latest_pull_by.truthy = true := by
      simp only [Bool.and_eq_true] at ht; exact ht.2
    refine ⟨⟨?_, ?_⟩, ?_⟩
    · intro c hc
      rw [hcl, List.mem_append] at hc
      rw [hnx]
      rcases hc with hc | hc
      · have := hf.1 c hc; omega
      · simp only [List.mem_singleton] at hc
        subst hc; simp
    · intro r hr
      rw [hph, List.mem_append] at hr
      rw [hnx]
      rcases hr with hr | hr
      · have := hf.2 r hr; omega
      · simp only [List.mem_singleton] at hr
        subst hr; simp
    · intro c hc r hlat
      rw [latestHistory_append hph] at hlat
      rw [hcl, List.mem_append] at hc
      rcases hc with hc | hc
      · have hlt := hf.1 c hc
        have hne : ¬ db.nextClientId = c.id := by omega
        simp only [hne, if_false] at hlat
        exact hm c hc r hlat
      · simp only [List.mem_singleton] at hc
        subst hc
        simp only [if_true] at hlat
        have hr := Option.some.inj hlat
        subst hr
        simp [JsValue.orNull, htd, htb]
  · have hcl : (createdDb w db b p).clients = db.clients ++
        [⟨db.nextClientId, b.client_name, b.domain_url, b.client_id, .str (w.hash p 10),
          .str p, b.latest_pull_date.orNull, b.latest_pull_by.orNull,
          b.gsos_version.orNull⟩] := by
      simp only [createdDb, ht, if_false]; rfl
    have hph : (createdDb w db b p).pull_history = db.pull_history := by
      simp only [createdDb, ht, if_false]; rfl
    have hnx : (createdDb w db b p).nextClientId = db.nextClientId + 1 := by
      simp only [createdDb, ht, if_false]; rfl
    refine ⟨⟨?_, ?_⟩, ?_⟩
    · intro c hc
      rw [hcl, List.mem_append] at hc
      rw [hnx]
      rcases hc with hc | hc
      · have := hf.1 c hc; omega
      · simp only [List.mem_singleton] at hc
        subst hc; simp
    · intro r hr
      rw [hph] at hr
      rw [hnx]
      have := hf.2 r hr; omega
    · intro c hc r hlat
      rw [latestHistory_congr hph] at hlat
      rw [hcl, List.mem_append] at hc
      rcases hc with hc | hc
      · exact hm c hc r hlat
      · simp only [List.mem_singleton] at hc
        subst hc
        rw [hnone] at hlat
        simp at hlat

theorem setClientFields_pull (c : ClientRow) (n d i lpd lpb v : JsValue)
    (pw : Option (JsValue × JsValue)) :
    (setClientFields c n d i lpd lpb v pw).latest_pull_date = lpd ∧
    (setClientFields c n d i lpd lpb v pw).latest_pull_by = lpb ∧
    (setClientFields c n d i lpd lpb v pw).gsos_version = v := by
  cases pw with
  | none => exact ⟨rfl, rfl, rfl⟩
  | some q => exact ⟨rfl, rfl, rfl⟩

theorem updateClient_invariant (db : Db) (id : Nat) (n d i lpd lpb v : JsValue)
    (pw : Option (JsValue × JsValue))
    (hkeep : ∀ c ∈ db.clients, c.id = id → ∀ h, latestHistory db id = some h →
      lpd = h.pull_date ∧ lpb = h.pull_by ∧ v = h.version)
    (hf : db.Fresh) (hm : Mirrored db) :
    (updateClient db id n d i lpd lpb v pw).Fresh ∧
      Mirrored (updateClient db id n d i lpd lpb v pw) := by
  have hph : (updateClient db id n d i lpd lpb v pw).pull_history = db.pull_history := rfl
  have hsrc : ∀ c ∈ (updateClient db id n d i lpd lpb v pw).clients,
      ∃ c0 ∈ db.clients, c0.id = c.id ∧ (c.id ≠ id → c = c0) := by
    intro c hc
    simp only [updateClient, List.mem_map] at hc
    obtain ⟨c0, hc0, heq⟩ := hc
    by_cases h0 : c0.id = id
    · simp only [h0, beq_self_eq_true, if_true] at heq
      subst heq
      refine ⟨c0, hc0, (setClientFields_id _ _ _ _ _ _ _ _).symm, ?_⟩
      intro hne
      rw [setClientFields_id] at hne
      exact absurd h0 hne
    · have hb : (c0.id == id) = false := by simpa using h0
      simp only [hb] at heq
      subst heq
      exact ⟨c0, hc0, rfl, fun _ => rfl⟩
  refine ⟨⟨?_, ?_⟩, ?_⟩
  · intro c hc
    obtain ⟨c0, hc0, hid, _⟩ := hsrc c hc
    have := hf.1 c0 hc0
    show c.id < db.nextClientId
    omega
  · intro r hr
    exact hf.2 r hr
  · intro c hc r hl
    rw [latestHistory_congr hph] at hl
    by_cases hid : c.id = id
    · obtain ⟨c0, hc0, h0, heq⟩ := mem_updateClient hc hid
      rw [hid] at hl
      obtain ⟨k1, k2, k3⟩ := hkeep c0 hc0 h0 r hl
      obtain ⟨s1, s2, s3⟩ := setClientFields_pull c0 n d i lpd lpb v pw
      rw [heq, s1, s2, s3]
      exact ⟨k1, k2, k3⟩
    · obtain ⟨c0, hc0, _, hsame⟩ := hsrc c hc
      have := hsame hid
      subst this
      exact hm c hc0 r hl

theorem putClient_breaks_mirror (w : Backend) (env : Env) (db : Db) (id : Nat) (b : ClientBody)
    (hst : (putClient w env db id b).2.status = 200) (hbad : ¬ PutKeepsMirror db id b) :
    ¬ Mirrored (putClient w env db id b).1 := by
  rw [putClient_of_ok w env db id b hst]
  intro hm
  apply hbad
  intro c hc hid h hl
  have hmem : setClientFields c b.client_name b.domain_url b.client_id
      b.latest_pull_date.orNull b.latest_pull_by.orNull b.gsos_version.orNull
      (putPasswords w b) ∈ (updateClient db id b.client_name b.domain_url b.client_id
        b.latest_pull_date.orNull b.latest_pull_by.orNull b.gsos_version.orNull
        (putPasswords w b)).clients := by
    simp only [updateClient, List.mem_map]
    exact ⟨c, hc, by simp [hid]⟩
  have hl2 : latestHistory (updateClient db id b.client_name b.domain_url b.client_id
      b.latest_pull_date.orNull b.latest_pull_by.orNull b.gsos_version.orNull
      (putPasswords w b)) (setClientFields c b.client_name b.domain_url b.client_id
      b.latest_pull_date.orNull b.latest_pull_by.orNull b.gsos_version.orNull
      (putPasswords w b)).id = some h := by
    rw [setClientFields_id, hid]
    exact hl
  have hres := hm _ hmem h hl2
  obtain ⟨s1, s2, s3⟩ := setClientFields_pull c b.client_name b.domain_url b.client_id
    b.latest_pull_date.orNull b.latest_pull_by.orNull b.gsos_version.orNull (putPasswords w b)
  rw [s1, s2, s3] at hres
  exact hres

theorem deleteClientRow_invariant (w : Backend) (db db1 : Db) (id : Nat)
    (hok : deleteClientRow w db id = .ok db1) (hf : db.Fresh) (hm : Mirrored db) :
    db1.Fresh ∧ Mirrored db1 := by
  have hshape : db1.clients = db.clients.filter (fun c => !(c.id == id)) ∧
      db1.nextClientId = db.nextClientId ∧
      (db1.pull_history = db.pull_history ∨
        db1.pull_history = db.pull_history.filter (fun r => !(r.client_id == id))) := by
    unfold deleteClientRow at hok
    split at hok
    · have := Except.ok.inj hok
      subst this
      exact ⟨rfl, rfl, Or.inl rfl⟩
    · split at hok
      · simp at hok
      · have := Except.ok.inj hok
        subst this
        exact ⟨rfl, rfl, Or.inl rfl⟩
    · split at hok
      · have := Except.ok.inj hok
        subst this
        exact ⟨rfl, rfl, Or.inr rfl⟩
      · have := Except.ok.inj hok
        subst this
        exact ⟨rfl, rfl, Or.inl rfl⟩
  obtain ⟨hcl, hnx, hph⟩ := hshape
  refine ⟨⟨?_, ?_⟩, ?_⟩
  · intro c hc
    rw [hcl, List.mem_filter] at hc
    rw [hnx]
    exact hf.1 c hc.1
  · intro r hr
    rw [hnx]
    rcases hph with hph | hph
    · rw [hph] at hr
      exact hf.2 r hr
    · rw [hph, List.mem_filter] at hr
      exact hf.2 r hr.1
  · intro c hc r hl
    rw [hcl, List.mem_filter] at hc
    have hne : c.id ≠ id := by simpa using hc.2
    rcases hph with hph | hph
    · rw [latestHistory_congr hph] at hl
      exact hm c hc.1 r hl
    · rw [latestHistory_filter_ne hph hne] at hl
      exact hm c hc.1 r hl

theorem deleteClient_of_ok (w : Backend) (env : Env) (db : Db) (id : Nat)
    (h : (deleteClient w env db id).2.status = 200) :
    deleteClientRow w db id = .ok (deleteClient w env db id).1 := by
  unfold deleteClient at h ⊢
  cases hc : env.connect with
  | some e => simp [hc, serverError] at h
  | none =>
    simp only [hc] at h ⊢
    generalize executeError env 0 _ = x at h ⊢
    cases x with
    | some e => simp [serverError] at h
    | none =>
      simp only at h ⊢
      cases hd : deleteClientRow w db id with
      | error e => simp [hd, serverError] at h
      | ok db1 =>
        simp only [hd, closeThen] at h ⊢
        cases hcl : env.close with
        | some e => simp [hcl, serverError] at h
        | none => rfl

theorem postHistory_invariant (db : Db) (id : Nat) (pd pb v : JsValue)
    (hex : ∃ c ∈ db.clients, c.id = id) (hf : db.Fresh) (hm : Mirrored db) :
    (updateLatestPull (addHistoryRow db id pd pb v) id pd pb v).Fresh ∧
      Mirrored (updateLatestPull (addHistoryRow db id pd pb v) id pd pb v) := by
  have hph : (updateLatestPull (addHistoryRow db id pd pb v) id pd pb v).pull_history =
      db.pull_history ++ [⟨db.nextHistoryId, id, pd, pb, v⟩] := rfl
  have hsrc : ∀ c ∈ (updateLatestPull (addHistoryRow db id pd pb v) id pd pb v).clients,
      ∃ c0 ∈ db.clients, c0.id = c.id ∧ (c.id ≠ id → c = c0) := by
    intro c hc
    simp only [updateLatestPull, addHistoryRow, List.mem_map] at hc
    obtain ⟨c0, hc0, heq⟩ := hc
    by_cases h0 : c0.id = id
    · simp only [h0, beq_self_eq_true, if_true] at heq
      subst heq
      exact ⟨c0, hc0, h0, fun hne => absurd rfl hne⟩
    · have hb : (c0.id == id) = false := by simpa using h0
      simp only [hb] at heq
      subst heq
      exact ⟨c0, hc0, rfl, fun _ => rfl⟩
  refine ⟨⟨?_, ?_⟩, ?_⟩
  · intro c hc
    obtain ⟨c0, hc0, hid, _⟩ := hsrc c hc
    have := hf.1 c0 hc0
    show c.id < db.nextClientId
    omega
  · intro r hr
    rw [hph, List.mem_append] at hr
    show r.client_id < db.nextClientId
    rcases hr with hr | hr
    · exact hf.2 r hr
    · simp only [List.mem_singleton] at hr
      subst hr
      obtain ⟨c, hc, hid⟩ := hex
      have := hf.1 c hc
      show id < db.nextClientId
      omega
  · intro c hc r hl
    rw [latestHistory_append hph] at hl
    by_cases hid : c.id = id
    · simp only [hid, if_true] at hl
      have hr := Option.some.inj hl
      subst hr
      exact mem_updateLatestPull hc hid
    · have hne : ¬ id = c.id := fun h => hid h.symm
      simp only [hne, if_false] at hl
      obtain ⟨c0, hc0, _, hsame⟩ := hsrc c hc
      have := hsame hid
      subst this
      exact hm c hc0 r hl

theorem reachableGuarded_invariant (w : Backend) (db : Db) (h : ReachableGuarded w db) :
    db.Fresh ∧ Mirrored db := by
  induction h with
  | empty =>
    refine ⟨⟨?_, ?_⟩, ?_⟩
    · intro c hc; simp [Db.empty] at hc
    · intro r hr; simp [Db.empty] at hr
    · intro c hc; simp [Db.empty] at hc
  | postClient env b _ hst ih =>
    obtain ⟨p, _, heq⟩ := postClient_of_ok w env _ b hst
    rw [heq]
    exact createdDb_invariant w _ b p ih.1 ih.2
  | putClient env id b _ hst hkeep ih =>
    rw [putClient_of_ok w env _ id b hst]
    exact updateClient_invariant _ id _ _ _ _ _ _ _ hkeep ih.1 ih.2
  | deleteClient env id _ hst ih =>
    exact deleteClientRow_invariant w _ _ id (deleteClient_of_ok w env _ id hst) ih.1 ih.2
  | postHistory env id b _ hst hex ih =>
    rw [(postHistory_of_ok w env _ id b hst).1]
    exact postHistory_invariant _ id _ _ _ hex ih.1 ih.2

/-- C1, as stated, fails: after creating a client with initial pull details and then
updating it with a body that omits the pull fields (both calls succeed), the client has a
`pull_history` row while its mirrored fields are `null`. -/
theorem mirrored_broken_by_put :
    Reachable demoBackend (putClient demoBackend Env.healthy demoDb 1 demoEdit).1 ∧
    ¬ Mirrored (putClient demoBackend Env.healthy demoDb 1 demoEdit).1 := by
  refine ⟨?_, ?_⟩
  · exact Reachable.putClient Env.healthy 1 demoEdit
      (Reachable.postClient Env.healthy demoBody Reachable.empty (by decide)) (by decide)
  · intro hm
    have h := hm ⟨1, .str "acme2", .str "acme.test", .str "c-1", .str "$2a$10$pw", .str "pw",
      .null, .null, .null⟩ (by decide)
      ⟨1, 1, .str "2024-05-01", .str "ann", .str "1.0"⟩ (by decide)
    exact absurd h.1 (by decide)

/-- C1, amended: in every state reachable from the empty database by a sequence of
successful calls that run one after the other (no two overlap) of `POST /api/clients`,
`DELETE /api/clients/:id`, `POST /api/clients/:id/history` for an existing client, and
`PUT /api/clients/:id` whose pull fields, for a client that has history, are those of
its most recently inserted `pull_history` row, every client with history has
`latest_pull_date`, `latest_pull_by` and `gsos_version` equal to `pull_date`, `pull_by`
and `version` of its most recently inserted `pull_history` row. -/
theorem mirrored_of_reachableGuarded (w : Backend) (db : Db) (h : ReachableGuarded w db) :
    Mirrored db :=
  (reachableGuarded_invariant w db h).2

/-- Witness of C1 amended: a creation, an update of the client that has history (its
pull details resent, the password changed), and a history post. -/
theorem mirrored_of_reachableGuarded_witness :
    ReachableGuarded demoBackend demoDb3 ∧ Mirrored demoDb3 :=
  have hkeep : PutKeepsMirror demoDb 1 demoBody := by
    intro c _ _ r hr
    have hlast : latestHistory demoDb 1 =
        some ⟨1, 1, .str "2024-05-01", .str "ann", .str "1.0"⟩ := by decide
    rw [hlast] at hr
    have := Option.some.inj hr
    subst this
    decide
  have h : ReachableGuarded demoBackend demoDb3 :=
    ReachableGuarded.postHistory Env.healthy 1 ⟨.str "2024-11-30", .str "bob", .undefined⟩
      (ReachableGuarded.putClient Env.healthy 1 demoBody
        (ReachableGuarded.postClient Env.healthy demoBody ReachableGuarded.empty (by decide))
        (by decide) hkeep)
      (by decide) (by decide)
  ⟨h, mirrored_of_reachableGuarded demoBackend demoDb3 h⟩

/-! ## Referential integrity under an enforced foreign key -/

theorem postHistory_ok_client_exists (w : Backend) (env : Env) (db : Db) (id : Nat)
    (b : HistoryBody) (hfk : w.fk ≠ .none) (h : (postHistory w env db id b).2.status = 201) :
    ∃ c ∈ db.clients, c.id = id := by
  have hins := (postHistory_of_ok w env db id b h).2.2.1
  unfold insertHistory at hins
  split at hins
  · simp at hins
  · rename_i hno
    by_contra hex
    apply hno
    refine ⟨hfk, ?_⟩
    rw [selectClient_eq_nil]
    intro c hc hid
    exact hex ⟨c, hc, hid⟩

theorem reachable_refIntegrity (w : Backend) (hfk : w.fk ≠ .none) (db : Db)
    (h : Reachable w db) : db.RefIntegrity := by
  induction h with
  | empty => intro r hr; simp [Db.empty] at hr
  | postClient env b _ hst ih =>
    obtain ⟨p, _, heq⟩ := postClient_of_ok w env _ b hst
    rw [heq]
    intro r hr
    simp only [createdDb] at hr ⊢
    split at hr
    · simp only [addHistoryRow, insertClient, List.mem_append, List.mem_singleton] at hr
      rename_i ht
      simp only [ht, if_true, addHistoryRow, insertClient]
      rcases hr with hr | hr
      · obtain ⟨c, hc, hid⟩ := ih r hr
        exact ⟨c, List.mem_append_left _ hc, hid⟩
      · subst hr
        exact ⟨_, List.mem_append_right _ (List.mem_singleton_self _), rfl⟩
    · rename_i ht
      simp only [ht, if_false, insertClient] at hr ⊢
      obtain ⟨c, hc, hid⟩ := ih r hr
      exact ⟨c, List.mem_append_left _ hc, hid⟩
  | putClient env id b _ hst ih =>
    rw [putClient_of_ok w env _ id b hst]
    intro r hr
    obtain ⟨c, hc, hid⟩ := ih r hr
    refine ⟨if c.id == id then setClientFields c b.client_name b.domain_url b.client_id
      b.latest_pull_date.orNull b.latest_pull_by.orNull b.gsos_version.orNull
      (putPasswords w b) else c, ?_, ?_⟩
    · simp only [updateClient, List.mem_map]
      exact ⟨c, hc, rfl⟩
    · split
      · rw [setClientFields_id]; exact hid
      · exact hid
  | @deleteClient db0 env id _ hst ih =>
    have hok := deleteClient_of_ok w env db0 id hst
    generalize (Gsos.deleteClient w env db0 id).1 = db1 at hok ⊢
    unfold deleteClientRow at hok
    split at hok
    · rename_i hm
      exact absurd hm hfk
    · split at hok
      · simp at hok
      · rename_i hnb
        have := Except.ok.inj hok
        subst this
        intro r hr
        obtain ⟨c, hc, hid⟩ := ih r hr
        refine ⟨c, ?_, hid⟩
        simp only [List.mem_filter]
        refine ⟨hc, ?_⟩
        by_contra hcid
        simp only [Bool.not_eq_true, Bool.not_eq_false_eq_eq_true, beq_iff_eq, Bool.not_not,
          Bool.not_eq_eq_eq_not, Bool.not_true, beq_eq_false_iff_ne, ne_eq, not_not] at hcid
        apply hnb
        refine ⟨?_, ?_⟩
        · intro hnil
          rw [selectClient_eq_nil] at hnil
          exact hnil c hc hcid
        · rw [List.any_eq_true]
          exact ⟨r, hr, by simp [← hid, hcid]⟩
    · split at hok
      · have := Except.ok.inj hok
        subst this
        intro r hr
        simp only [List.mem_filter] at hr
        obtain ⟨c, hc, hid⟩ := ih r hr.1
        refine ⟨c, ?_, hid⟩
        simp only [List.mem_filter]
        refine ⟨hc, ?_⟩
        rw [hid]
        exact hr.2
      · rename_i hnone
        have := Except.ok.inj hok
        subst this
        intro r hr
        obtain ⟨c, hc, hid⟩ := ih r hr
        refine ⟨c, ?_, hid⟩
        simp only [List.mem_filter]
        refine ⟨hc, ?_⟩
        have hnil : selectClient db0 id = [] := by
          by_contra hne
          exact hnone hne
        rw [selectClient_eq_nil] at hnil
        simpa using hnil c hc
  | @postHistory db0 env id b _ hst ih =>
    have hex := postHistory_ok_client_exists w env db0 id b hfk hst
    rw [(postHistory_of_ok w env db0 id b hst).1]
    have hkeep : ∀ c ∈ db0.clients, ∃ c1 ∈ (updateLatestPull
        (addHistoryRow db0 id b.pull_date b.pull_by b.version.orNull) id b.pull_date b.pull_by
        b.version.orNull).clients, c1.id = c.id := by
      intro c hc
      refine ⟨if c.id == id then ⟨c.id, c.client_name, c.domain_url, c.client_id, c.password,
        c.original_password, b.pull_date, b.pull_by, b.version.orNull⟩ else c, ?_, ?_⟩
      · simp only [updateLatestPull, addHistoryRow, List.mem_map]
        exact ⟨c, hc, rfl⟩
      · split <;> rfl
    intro r hr
    have hr2 : r ∈ db0.pull_history ++
        [⟨db0.nextHistoryId, id, b.pull_date, b.pull_by, b.version.orNull⟩] := hr
    rw [List.mem_append] at hr2
    rcases hr2 with hr2 | hr2
    · obtain ⟨c, hc, hid⟩ := ih r hr2
      obtain ⟨c1, hc1, hid1⟩ := hkeep c hc
      exact ⟨c1, hc1, hid1.trans hid⟩
    · simp only [List.mem_singleton] at hr2
      subst hr2
      obtain ⟨c, hc, hid⟩ := hex
      obtain ⟨c1, hc1, hid1⟩ := hkeep c hc
      exact ⟨c1, hc1, hid1.trans hid⟩

end Gsos
